import Mathlib

/-!
Shallow embedding of the augmented-subtype network builder of
`scripts/build_data.py` (section 5.2, the `aug_map` loop), together with the
pandas operations it relies on (`pd.read_csv(dtype=str)` frames,
`df.columns.str.lower()`, `pd.concat`, `DataFrame.drop_duplicates`,
`pd.unique` over the ravelled endpoint columns and `DataFrame.to_csv`).

A pandas frame read with `dtype=str` is modelled as a `Table`: a list of
column names plus a list of rows whose cells are `Option String`
(`none` models a NaN cell, i.e. an empty CSV field).
-/

namespace BuildData

/-- A tabular frame as produced by `pd.read_csv(path, dtype=str)`:
column names plus rows of optional string cells (`none` = pandas NaN). -/
structure Table where
  header : List String
  rows : List (List (Option String))
deriving DecidableEq

/-- Python `str.lower()`: lowercase every character. -/
def pyLower (s : String) : String :=
  ⟨s.data.map Char.toLower⟩

/-- `df.columns = df.columns.str.lower()` (build_data.py lines 282 and 286). -/
def lowerTable (t : Table) : Table :=
  { header := t.header.map pyLower, rows := t.rows }

/-- Index of the first column named `c` in a header (the header's length when
`c` does not occur), used to model label-based cell access. -/
def colIdx (c : String) : List String → Nat
  | [] => 0
  | a :: l => if a = c then 0 else colIdx c l + 1

/-- The cell of row `r` at the column labelled `c` of header `h`; `none` when
the column is absent or the row is too short (pandas reindexing fills NaN). -/
def lookupCell (h : List String) (r : List (Option String)) (c : String) :
    Option String :=
  r.getD (colIdx c h) none

/-- Reindex one row from header `h` to a target list of columns, filling
missing columns with NaN, as `pd.concat` does when aligning frames. -/
def reindexRow (h : List String) (r : List (Option String))
    (tgt : List String) : List (Option String) :=
  tgt.map (lookupCell h r)

/-- `pd.concat([t1, t2], ignore_index=True)` (build_data.py line 289):
the resulting columns are `t1`'s followed by the columns of `t2` not already
present; every row is reindexed to that column list, missing cells = NaN. -/
def concatTables (t1 t2 : Table) : Table :=
  let h := t1.header ++ t2.header.filter (fun c => ¬ t1.header.contains c)
  { header := h,
    rows := t1.rows.map (fun r => reindexRow t1.header r h) ++
            t2.rows.map (fun r => reindexRow t2.header r h) }

/-- Keep-first de-duplication with an accumulator of already seen elements:
`dropDupAux seen l` removes from `l` every element already in `seen` or equal
to an earlier kept element. -/
def dropDupAux {α : Type} [DecidableEq α] (seen : List α) : List α → List α
  | [] => []
  | a :: l => if a ∈ seen then dropDupAux seen l
              else a :: dropDupAux (a :: seen) l

/-- `DataFrame.drop_duplicates()` (build_data.py line 291): remove rows equal
to an earlier row, keeping the first occurrence. -/
def dropDuplicates {α : Type} [DecidableEq α] (l : List α) : List α :=
  dropDupAux [] l

/-- `pd.unique` (build_data.py lines 300 and 303): distinct values in order
of first appearance. -/
def pdUnique {α : Type} [DecidableEq α] (l : List α) : List α :=
  dropDupAux [] l

/-- The merged edge table `df_combined` of one augmented subtype
(build_data.py lines 281-291): lowercase both headers, concatenate, then
drop exact-duplicate rows. -/
def mergeEdges (dfOrigEdges dfAugEdges : Table) : Table :=
  let lo := lowerTable dfOrigEdges
  let la := lowerTable dfAugEdges
  let c := concatTables lo la
  { header := c.header, rows := dropDuplicates c.rows }

/-- The endpoint cells of one row: the `source` and `target` cells when both
columns exist, else the first two positional cells
(build_data.py lines 299-303). -/
def endpointCells (t : Table) (r : List (Option String)) :
    List (Option String) :=
  if "source" ∈ t.header ∧ "target" ∈ t.header then
    [lookupCell t.header r "source", lookupCell t.header r "target"]
  else r.take 2

/-- The ravelled endpoint values of a table, row-major, i.e.
`df[["source","target"]].values.ravel()` resp. `df.iloc[:, :2].values.ravel()`
(build_data.py lines 300 and 303). -/
def endpointValues (t : Table) : List (Option String) :=
  t.rows.flatMap (endpointCells t)

/-- `all_nodes` (build_data.py lines 299-303): distinct endpoint values in
order of first appearance. -/
def allNodes (t : Table) : List (Option String) :=
  pdUnique (endpointValues t)

/-- `df_nodes = pd.DataFrame({"id": all_nodes})` (build_data.py line 305). -/
def nodesOf (t : Table) : Table :=
  { header := ["id"], rows := (allNodes t).map (fun v => [v]) }

/-- Number of rows of `l` that exactly duplicate an earlier row (or an
element of `seen`): the rows `drop_duplicates` removes. -/
def dupCountAux {α : Type} [DecidableEq α] (seen : List α) : List α → Nat
  | [] => 0
  | a :: l => if a ∈ seen then 1 + dupCountAux seen l
              else dupCountAux (a :: seen) l

/-- Number of exact-duplicate rows found in a list (duplicates of earlier
entries, the ones `drop_duplicates` removes). -/
def dupCount {α : Type} [DecidableEq α] (l : List α) : Nat :=
  dupCountAux [] l

/-!
File-system model of the `aug_map` loop (build_data.py lines 248-309).
A file is either a CSV that `pd.read_csv` parses into a `Table`, or raw text
it cannot parse as tabular data; an absent path maps to `none`.
-/

/-- Content of one file: a CSV that parses into a frame, or unparseable
text. -/
inductive FileData where
  | parsed (t : Table)
  | text (s : String)
deriving DecidableEq

/-- A file system: each path either holds a file or is absent. -/
def FS : Type := String → Option FileData

/-- Overwrite the file at path `p`. -/
def writeFile (fs : FS) (p : String) (d : FileData) : FS :=
  fun q => if q = p then some d else fs q

/-- The three input paths of one augmented subtype, as assembled from the
`aug_map` entry (build_data.py lines 264-269). -/
structure AugInfo where
  origEdgesPath : String
  origNodesPath : String
  augEdgesPath : String
deriving DecidableEq

/-- `aug_map["luminal_aug"]` (build_data.py lines 249-254) with the folder
names joined onto the file names. -/
def luminalInfo : AugInfo :=
  { origEdgesPath := "raw_data/5.Luminal figure/luminal_original_edges.csv",
    origNodesPath := "raw_data/5.Luminal figure/luminal_original_nodes.csv",
    augEdgesPath :=
      "raw_data/6.luminal figure after knowledge map augmentation/Common_High-Ranked_Gene_Links5%_import.xlsx.csv" }

/-- `aug_map["tnbc_aug"]` (build_data.py lines 255-260) with the folder
names joined onto the file names. -/
def tnbcInfo : AugInfo :=
  { origEdgesPath := "raw_data/7.TNBC figure/TNBC_original_edges.csv",
    origNodesPath := "raw_data/7.TNBC figure/TNBC_original_nodes.csv",
    augEdgesPath :=
      "raw_data/8.TNBC figure after knowledge map augmentation/TNBC_Common_High-Ranked_Gene_Links_import50.csv" }

/-- The `aug_map` dictionary in its (insertion-ordered) iteration order
(build_data.py lines 248-261, 263). -/
def augMap : List (String × AugInfo) :=
  [("luminal_aug", luminalInfo), ("tnbc_aug", tnbcInfo)]

/-- `SUBTYPE / f"{tag}_edges.csv"` (build_data.py line 294). -/
def outEdgesPath (tag : String) : String :=
  "data/subtype/" ++ tag ++ "_edges.csv"

/-- `SUBTYPE / f"{tag}_nodes.csv"` (build_data.py line 306). -/
def outNodesPath (tag : String) : String :=
  "data/subtype/" ++ tag ++ "_nodes.csv"

/-- Replace every occurrence of `pat` in the remaining characters, scanning
left to right; `fuel` bounds the recursion and is at least the input length
at every call site. -/
def replFuel (pat rep : List Char) : Nat → List Char → List Char
  | _, [] => []
  | 0, l => l
  | n + 1, c :: cs =>
      if pat.isPrefixOf (c :: cs) then
        rep ++ replFuel pat rep n ((c :: cs).drop pat.length)
      else
        c :: replFuel pat rep n cs

/-- Python `s.replace(pat, rep)` for a non-empty pattern: every
non-overlapping occurrence of `pat` in `s`, scanned left to right, is
replaced by `rep` (build_data.py line 273 uses it on subtype tags). -/
def pyReplace (s pat rep : String) : String :=
  if pat.data = [] then s
  else ⟨replFuel pat.data rep.data s.data.length s.data⟩

/-- One CSV field as written by `to_csv` (QUOTE_MINIMAL): quoted, with inner
quotes doubled, when it holds a comma, quote or line break. -/
def csvField (s : String) : String :=
  if s.data.contains ',' || s.data.contains '"' || s.data.contains '\n'
      || s.data.contains '\r'
  then "\"" ++ pyReplace s "\"" "\"\"" ++ "\""
  else s

/-- One CSV data row as written by `to_csv` (NaN written as empty field). -/
def serializeRow (r : List (Option String)) : String :=
  String.intercalate "," (r.map (fun c => csvField (c.getD "")))

/-- `df.to_csv(path, index=False)`: header line then one line per row,
newline-terminated. -/
def serializeTable (t : Table) : String :=
  String.intercalate "\n"
    (String.intercalate "," (t.header.map csvField) :: t.rows.map serializeRow)
  ++ "\n"

/-- Outcome of one iteration of the `aug_map` loop for one subtype:
skipped for missing original files, skipped for missing augmented file,
aborted by an uncaught `pd.read_csv` parse error, or built tables. -/
inductive StepResult where
  | skipOrig
  | skipAug
  | parseFail
  | built (edges nodes : Table)
deriving DecidableEq

/-- One iteration of the `aug_map` loop up to (but not including) its writes
(build_data.py lines 264-291, 297-305): existence checks with `continue`,
then `pd.read_csv` of both edge files (raising on unparseable input), then
the merge and the node derivation. -/
def stepOf (i : AugInfo) (fs : FS) : StepResult :=
  if (fs i.origEdgesPath).isNone || (fs i.origNodesPath).isNone then
    .skipOrig
  else if (fs i.augEdgesPath).isNone then
    .skipAug
  else
    match fs i.origEdgesPath, fs i.augEdgesPath with
    | some (.parsed tOrig), some (.parsed tAug) =>
        let combined := mergeEdges tOrig tAug
        .built combined (nodesOf combined)
    | _, _ => .parseFail

/-- The writes of one iteration (build_data.py lines 293-295 and 305-306):
a built subtype overwrites its two output CSVs, every other outcome writes
nothing. -/
def applyStep (tag : String) (s : StepResult) (fs : FS) : FS :=
  match s with
  | .built e n =>
      writeFile (writeFile fs (outEdgesPath tag)
          (FileData.text (serializeTable e)))
        (outNodesPath tag) (FileData.text (serializeTable n))
  | _ => fs

/-- The per-subtype console messages of the loop (build_data.py lines
273-274, 277 and 308-309); a parse error prints nothing for its subtype. -/
inductive Report where
  | missingOrig (tag origEdgesPath origNodesPath : String)
  | missingAug (tag augEdgesPath : String)
  | merged (tag : String) (nNodes nEdges : Nat)
deriving DecidableEq

/-- The message one iteration prints (build_data.py lines 272-278, 308-309):
the missing-original message uses `tag.replace("_aug", "_original")` and both
original paths, the missing-augmented message uses the tag and the augmented
path, and a successful merge reports node and edge counts. -/
def reportOf (tag : String) (i : AugInfo) (s : StepResult) : Option Report :=
  match s with
  | .skipOrig =>
      some (.missingOrig (pyReplace tag "_aug" "_original")
        i.origEdgesPath i.origNodesPath)
  | .skipAug => some (.missingAug tag i.augEdgesPath)
  | .parseFail => none
  | .built e n => some (.merged tag n.rows.length e.rows.length)

/-- The `aug_map` loop over a list of subtypes: each subtype is checked,
read, merged and written in turn; an unparseable read raises out of the loop
(`Bool` result `false`), leaving earlier subtypes' writes in place and later
subtypes unprocessed. -/
def runTags : List (String × AugInfo) → FS → FS × List Report × Bool
  | [], fs => (fs, [], true)
  | (tag, i) :: rest, fs =>
    let s := stepOf i fs
    if s = StepResult.parseFail then (fs, [], false)
    else
      let fs1 := applyStep tag s fs
      let r := runTags rest fs1
      (r.1, (reportOf tag i s).toList ++ r.2.1, r.2.2)

/-- The whole `aug_map` loop of build_data.py (lines 263-309). -/
def runAug (fs : FS) : FS × List Report × Bool :=
  runTags augMap fs

/-! Small concrete tables and file systems used to evaluate the model on
explicit inputs. -/

/-- One edge A-B under lowercase `source`/`target` columns. -/
def tblST : Table := ⟨["source", "target"], [[some "A", some "B"]]⟩

/-- The same edge A-B twice, under capitalised column names. -/
def tblSTdup : Table :=
  ⟨["Source", "Target"], [[some "A", some "B"], [some "A", some "B"]]⟩

/-- The edge A-B with its endpoint values swapped. -/
def tblSwap : Table := ⟨["source", "target"], [[some "B", some "A"]]⟩

/-- One edge C-D. -/
def tblCD : Table := ⟨["source", "target"], [[some "C", some "D"]]⟩

/-- A header-only edge table: zero data rows. -/
def tblHdrOnly : Table := ⟨["source", "target"], []⟩

/-- An edge row whose `source` cell is missing (NaN). -/
def tblNaN : Table := ⟨["source", "target"], [[none, some "B"]]⟩

/-- A file system where the luminal subtype's augmented-edges file exists but
is not parseable as tabular data, while every tnbc input is present and
parseable. -/
def cfs4 : FS := fun p =>
  if p = luminalInfo.origEdgesPath then some (.parsed tblST)
  else if p = luminalInfo.origNodesPath then some (.text "nodes")
  else if p = luminalInfo.augEdgesPath then some (.text "not,a\"valid,csv")
  else if p = tnbcInfo.origEdgesPath then some (.parsed tblCD)
  else if p = tnbcInfo.origNodesPath then some (.text "nodes")
  else if p = tnbcInfo.augEdgesPath then some (.parsed tblSwap)
  else none

/-- A file system where the luminal subtype's original-edges file is absent
while every tnbc input is present and parseable. -/
def cfs5 : FS := fun p =>
  if p = tnbcInfo.origEdgesPath then some (.parsed tblST)
  else if p = tnbcInfo.origNodesPath then some (.text "nodes")
  else if p = tnbcInfo.augEdgesPath then some (.parsed tblCD)
  else none

/-- A file system where the luminal subtype's original-edges file is present
but its original-nodes file is absent. -/
def cfs9 : FS := fun p =>
  if p = luminalInfo.origEdgesPath then some (.parsed tblST)
  else none

/-! Basic lemmas about keep-first de-duplication. -/

theorem mem_dropDupAux {α : Type} [DecidableEq α] {seen : List α}
    {l : List α} {x : α} :
    x ∈ dropDupAux seen l ↔ x ∈ l ∧ x ∉ seen := by
  induction l generalizing seen with
  | nil => simp [dropDupAux]
  | cons a l ih =>
    by_cases ha : a ∈ seen
    · simp only [dropDupAux, if_pos ha, ih, List.mem_cons]
      constructor
      · rintro ⟨hx, hxs⟩; exact ⟨Or.inr hx, hxs⟩
      · rintro ⟨hx | hx, hxs⟩
        · exact absurd ha (hx ▸ hxs)
        · exact ⟨hx, hxs⟩
    · simp only [dropDupAux, if_neg ha, List.mem_cons, ih, List.mem_cons]
      constructor
      · rintro (rfl | ⟨hx, hxs⟩)
        · exact ⟨Or.inl rfl, ha⟩
        · exact ⟨Or.inr hx, fun hs => hxs (Or.inr hs)⟩
      · rintro ⟨rfl | hx, hxs⟩
        · exact Or.inl rfl
        · by_cases hxa : x = a
          · exact Or.inl hxa
          · exact Or.inr ⟨hx, fun hs =>
              hs.elim (fun h1 => hxa h1) (fun h1 => hxs h1)⟩

theorem mem_dropDuplicates {α : Type} [DecidableEq α] {l : List α} {x : α} :
    x ∈ dropDuplicates l ↔ x ∈ l := by
  simp [dropDuplicates, mem_dropDupAux]

theorem nodup_dropDupAux {α : Type} [DecidableEq α] (seen : List α)
    (l : List α) : (dropDupAux seen l).Nodup := by
  induction l generalizing seen with
  | nil => simp [dropDupAux]
  | cons a l ih =>
    by_cases ha : a ∈ seen
    · simpa [dropDupAux, if_pos ha] using ih seen
    · simp only [dropDupAux, if_neg ha]
      refine List.Pairwise.cons ?_ (ih (a :: seen))
      intro b hb
      rcases mem_dropDupAux.mp hb with ⟨-, hbs⟩
      exact fun hab => hbs (hab ▸ List.mem_cons_self a seen)

theorem sublist_dropDupAux {α : Type} [DecidableEq α] (seen : List α)
    (l : List α) : (dropDupAux seen l).Sublist l := by
  induction l generalizing seen with
  | nil => simp [dropDupAux]
  | cons a l ih =>
    by_cases ha : a ∈ seen
    · simpa [dropDupAux, if_pos ha] using (ih seen).cons a
    · simpa [dropDupAux, if_neg ha] using (ih (a :: seen)).cons₂ a

theorem length_dropDupAux_add {α : Type} [DecidableEq α] (seen : List α)
    (l : List α) :
    (dropDupAux seen l).length + dupCountAux seen l = l.length := by
  induction l generalizing seen with
  | nil => simp [dropDupAux, dupCountAux]
  | cons a l ih =>
    by_cases ha : a ∈ seen
    · simp only [dropDupAux, dupCountAux, if_pos ha, List.length_cons]
      have := ih seen
      omega
    · simp only [dropDupAux, dupCountAux, if_neg ha, List.length_cons]
      have := ih (a :: seen)
      omega

theorem dropDupAux_eq_self {α : Type} [DecidableEq α] {seen : List α}
    {l : List α} (hn : l.Nodup) (hs : ∀ x ∈ l, x ∉ seen) :
    dropDupAux seen l = l := by
  induction l generalizing seen with
  | nil => simp [dropDupAux]
  | cons a l ih =>
    have ha : a ∉ seen := hs a (List.mem_cons_self a l)
    simp only [dropDupAux, if_neg ha]
    refine congrArg (a :: ·) (ih hn.of_cons ?_)
    intro x hx hmem
    rcases List.mem_cons.mp hmem with rfl | hmem
    · exact (List.nodup_cons.mp hn).1 hx
    · exact hs x (List.mem_cons_of_mem a hx) hmem

/-! Lemmas about column lookup and `pd.concat` when the two frames share
one duplicate-free header. -/

theorem colIdx_get {h : List String} (hn : h.Nodup) (i : Nat)
    (hi : i < h.length) : colIdx (h.get ⟨i, hi⟩) h = i := by
  induction h generalizing i with
  | nil => simp at hi
  | cons a l ih =>
    cases i with
    | zero => simp [colIdx]
    | succ j =>
      have hj : j < l.length := Nat.lt_of_succ_lt_succ hi
      have hmem : l.get ⟨j, hj⟩ ∈ l := l.get_mem j hj
      have hne : a ≠ l.get ⟨j, hj⟩ :=
        fun hEq => (List.nodup_cons.mp hn).1 (hEq ▸ hmem)
      simp only [List.get_cons_succ, colIdx, if_neg hne]
      exact congrArg (· + 1) (ih (List.nodup_cons.mp hn).2 j hj)

theorem reindexRow_self {h : List String} {r : List (Option String)}
    (hn : h.Nodup) (hr : r.length = h.length) : reindexRow h r h = r := by
  apply List.ext_get
  · simp [reindexRow, hr]
  · intro i h1 h2
    have hi : i < h.length := by simpa [reindexRow] using h1
    simp only [reindexRow, List.get_map, lookupCell]
    rw [colIdx_get hn i hi]
    exact List.getD_eq_get r none h2

theorem filter_not_contains_self (h : List String) :
    h.filter (fun c => ¬ h.contains c) = [] := by
  apply List.filter_eq_nil_iff.mpr
  intro a ha
  simp [ha]

theorem concatTables_same_header {t1 t2 : Table}
    (hh : t2.header = t1.header) (hn : t1.header.Nodup)
    (h1 : ∀ r ∈ t1.rows, r.length = t1.header.length)
    (h2 : ∀ r ∈ t2.rows, r.length = t2.header.length) :
    concatTables t1 t2 = ⟨t1.header, t1.rows ++ t2.rows⟩ := by
  simp only [concatTables, hh, filter_not_contains_self, List.append_nil]
  refine congrArg (Table.mk t1.header) ?_
  have e1 : t1.rows.map (fun r => reindexRow t1.header r t1.header) = t1.rows := by
    rw [List.map_congr_left (fun r hr => reindexRow_self hn (h1 r hr))]
    simp
  have e2 : t2.rows.map (fun r => reindexRow t1.header r t1.header) = t2.rows := by
    rw [List.map_congr_left (fun r hr => reindexRow_self hn (hh ▸ h2 r hr))]
    simp
  rw [e1, e2]

/-- When the two lowercased headers coincide, are duplicate-free and the rows
are rectangular, the merged table is exactly the concatenated rows with
keep-first de-duplication under the lowercased header. -/
theorem mergeEdges_eq (a b : Table)
    (hh : (lowerTable b).header = (lowerTable a).header)
    (hn : (lowerTable a).header.Nodup)
    (ha : ∀ r ∈ a.rows, r.length = a.header.length)
    (hb : ∀ r ∈ b.rows, r.length = b.header.length) :
    mergeEdges a b =
      ⟨(lowerTable a).header, dropDuplicates (a.rows ++ b.rows)⟩ := by
  have hlen1 : (lowerTable a).header.length = a.header.length := by
    simp [lowerTable]
  have hlen2 : (lowerTable b).header.length = b.header.length := by
    simp [lowerTable]
  have h1 : ∀ r ∈ (lowerTable a).rows, r.length = (lowerTable a).header.length :=
    fun r hr => hlen1 ▸ ha r hr
  have h2 : ∀ r ∈ (lowerTable b).rows, r.length = (lowerTable b).header.length :=
    fun r hr => hlen2 ▸ hb r hr
  have hc := concatTables_same_header hh hn h1 h2
  simp only [mergeEdges]
  rw [hc]
  rfl

/-- A singleton row `[v]` is a row of the derived node table exactly when `v`
occurs among the ravelled endpoint values of the edge table. -/
theorem mem_nodesOf {t : Table} {v : Option String} :
    [v] ∈ (nodesOf t).rows ↔ v ∈ endpointValues t := by
  constructor
  · intro hv
    rcases List.mem_map.mp hv with ⟨u, hu, he⟩
    have huv : u = v := by simpa using he
    have := mem_dropDupAux.mp (huv ▸ hu)
    exact this.1
  · intro hv
    exact List.mem_map.mpr ⟨v, mem_dropDupAux.mpr ⟨hv, List.not_mem_nil v⟩, rfl⟩

/-! Lemmas about the file-system pipeline. -/

theorem stepOf_congr (i : AugInfo) {fs fs' : FS}
    (h1 : fs i.origEdgesPath = fs' i.origEdgesPath)
    (h2 : fs i.origNodesPath = fs' i.origNodesPath)
    (h3 : fs i.augEdgesPath = fs' i.augEdgesPath) :
    stepOf i fs = stepOf i fs' := by
  simp only [stepOf, h1, h2, h3]

theorem applyStep_apply_ne (tag : String) (s : StepResult) (fs : FS)
    (p : String) (hp1 : p ≠ outEdgesPath tag) (hp2 : p ≠ outNodesPath tag) :
    applyStep tag s fs p = fs p := by
  cases s <;> simp [applyStep, writeFile, hp1, hp2]

theorem applyStep_absorb (tag : String) (s : StepResult) (fs : FS)
    (h : ∀ e n, s = StepResult.built e n →
      fs (outEdgesPath tag) = some (FileData.text (serializeTable e)) ∧
      fs (outNodesPath tag) = some (FileData.text (serializeTable n))) :
    applyStep tag s fs = fs := by
  cases s with
  | built e n =>
    rcases h e n rfl with ⟨he, hn⟩
    funext q
    by_cases hq1 : q = outNodesPath tag
    · subst hq1; simp [applyStep, writeFile, hn]
    · by_cases hq2 : q = outEdgesPath tag
      · subst hq2; simp [applyStep, writeFile, hq1, he]
      · simp [applyStep, writeFile, hq1, hq2]
  | skipOrig => rfl
  | skipAug => rfl
  | parseFail => rfl

theorem applyStep_self (tag : String) (s : StepResult) (fs : FS)
    (hne : outEdgesPath tag ≠ outNodesPath tag) :
    applyStep tag s (applyStep tag s fs) = applyStep tag s fs := by
  apply applyStep_absorb
  rintro e n rfl
  constructor
  · simp [applyStep, writeFile, hne]
  · simp [applyStep, writeFile]

theorem stepOf_applyStep (i : AugInfo) (g : String) (s : StepResult) (fs : FS)
    (h1 : i.origEdgesPath ≠ outEdgesPath g) (h2 : i.origEdgesPath ≠ outNodesPath g)
    (h3 : i.origNodesPath ≠ outEdgesPath g) (h4 : i.origNodesPath ≠ outNodesPath g)
    (h5 : i.augEdgesPath ≠ outEdgesPath g) (h6 : i.augEdgesPath ≠ outNodesPath g) :
    stepOf i (applyStep g s fs) = stepOf i fs :=
  stepOf_congr i (applyStep_apply_ne g s fs _ h1 h2)
    (applyStep_apply_ne g s fs _ h3 h4) (applyStep_apply_ne g s fs _ h5 h6)

/-- Absorption across an interleaved write to a different subtype's outputs:
re-applying a step whose outputs are already in place is the identity. -/
theorem applyStep_absorb2 (g1 g2 : String) (s1 s2 : StepResult) (fs : FS)
    (hne1 : outEdgesPath g1 ≠ outNodesPath g1)
    (h12 : outEdgesPath g1 ≠ outEdgesPath g2)
    (h13 : outEdgesPath g1 ≠ outNodesPath g2)
    (h14 : outNodesPath g1 ≠ outEdgesPath g2)
    (h15 : outNodesPath g1 ≠ outNodesPath g2) :
    applyStep g1 s1 (applyStep g2 s2 (applyStep g1 s1 fs)) =
      applyStep g2 s2 (applyStep g1 s1 fs) := by
  apply applyStep_absorb
  rintro e n rfl
  constructor
  · rw [applyStep_apply_ne g2 s2 _ _ h12 h13]
    simp [applyStep, writeFile, hne1]
  · rw [applyStep_apply_ne g2 s2 _ _ h14 h15]
    simp [applyStep, writeFile]

/-- Closed form of the two-subtype `aug_map` loop. -/
theorem runAug_eq (fs : FS) :
    runAug fs =
      if stepOf luminalInfo fs = StepResult.parseFail then (fs, [], false)
      else if stepOf tnbcInfo
          (applyStep "luminal_aug" (stepOf luminalInfo fs) fs) =
          StepResult.parseFail then
        (applyStep "luminal_aug" (stepOf luminalInfo fs) fs,
         (reportOf "luminal_aug" luminalInfo (stepOf luminalInfo fs)).toList,
         false)
      else
        (applyStep "tnbc_aug"
           (stepOf tnbcInfo (applyStep "luminal_aug" (stepOf luminalInfo fs) fs))
           (applyStep "luminal_aug" (stepOf luminalInfo fs) fs),
         (reportOf "luminal_aug" luminalInfo (stepOf luminalInfo fs)).toList ++
           (reportOf "tnbc_aug" tnbcInfo
             (stepOf tnbcInfo
               (applyStep "luminal_aug" (stepOf luminalInfo fs) fs))).toList,
         true) := by
  simp only [runAug, augMap, runTags]
  split
  · rfl
  · split
    · simp
    · simp

/-! The claims. -/

/-- Claim C1: for an augmented subtype whose two input tables are present and
parseable (same duplicate-free lowercased header, rectangular rows), the
merged edge table carries the lowercased header and its rows are exactly the
original rows followed by the augmented rows with exact-duplicate rows
removed keeping the first occurrence (a sublist of the concatenation); two
rows that differ only by swapping the two endpoint values are not treated as
duplicates and both remain. -/
theorem c1_merged_is_concat_dedup (a b : Table)
    (hh : (lowerTable b).header = (lowerTable a).header)
    (hn : (lowerTable a).header.Nodup)
    (ha : ∀ r ∈ a.rows, r.length = a.header.length)
    (hb : ∀ r ∈ b.rows, r.length = b.header.length) :
    (mergeEdges a b).header = (lowerTable a).header ∧
    (mergeEdges a b).rows = dropDuplicates (a.rows ++ b.rows) ∧
    (mergeEdges a b).rows.Sublist (a.rows ++ b.rows) ∧
    ∀ (x y : Option String) (rest : List (Option String)),
      x ≠ y → (x :: y :: rest) ∈ a.rows ++ b.rows →
      (y :: x :: rest) ∈ a.rows ++ b.rows →
      (x :: y :: rest) ∈ (mergeEdges a b).rows ∧
      (y :: x :: rest) ∈ (mergeEdges a b).rows := by
  rw [mergeEdges_eq a b hh hn ha hb]
  refine ⟨rfl, rfl, sublist_dropDupAux _ _, ?_⟩
  intro x y rest _ hm1 hm2
  exact ⟨mem_dropDuplicates.mpr hm1, mem_dropDuplicates.mpr hm2⟩

theorem c1_witness :
    (mergeEdges tblST tblSwap).rows =
      dropDuplicates (tblST.rows ++ tblSwap.rows) ∧
    [some "A", some "B"] ∈ (mergeEdges tblST tblSwap).rows ∧
    [some "B", some "A"] ∈ (mergeEdges tblST tblSwap).rows := by
  have h := c1_merged_is_concat_dedup tblST tblSwap (by decide) (by decide)
    (by decide) (by decide)
  have hs := h.2.2.2 (some "A") (some "B") [] (by decide) (by decide) (by decide)
  exact ⟨h.2.1, hs.1, hs.2⟩

/-- Claim C2: for a merged edge table with duplicate-free column names, the
derived node table has the single column `id`, one identifier per row, no
duplicate rows, and its singleton rows are exactly the distinct values of the
`source`/`target` columns when both are present, else of the first two
positional columns. -/
theorem c2_nodes_single_id_distinct_endpoints (t : Table)
    (hn : t.header.Nodup) :
    (nodesOf t).header = ["id"] ∧
    (∀ r ∈ (nodesOf t).rows, ∃ v, r = [v]) ∧
    (nodesOf t).rows.Nodup ∧
    ∀ v : Option String,
      [v] ∈ (nodesOf t).rows ↔
        (if "source" ∈ t.header ∧ "target" ∈ t.header then
          v ∈ t.rows.flatMap (fun r =>
            [lookupCell t.header r "source", lookupCell t.header r "target"])
        else v ∈ t.rows.flatMap (fun r => r.take 2)) := by
  refine ⟨rfl, ?_, ?_, ?_⟩
  · intro r hr
    rcases List.mem_map.mp hr with ⟨v, -, rfl⟩
    exact ⟨v, rfl⟩
  · refine List.Nodup.map ?_ (nodup_dropDupAux _ _)
    intro u v huv
    simpa using huv
  · intro v
    rw [mem_nodesOf]
    by_cases hst : "source" ∈ t.header ∧ "target" ∈ t.header
    · rw [if_pos hst]
      simp [endpointValues, endpointCells, hst.1, hst.2]
    · rw [if_neg hst]
      simp [endpointValues, endpointCells, hst]

theorem c2_witness :
    tblST.header.Nodup ∧
    (nodesOf tblST).header = ["id"] ∧ (nodesOf tblST).rows.Nodup :=
  ⟨by decide,
   (c2_nodes_single_id_distinct_endpoints tblST (by decide)).1,
   (c2_nodes_single_id_distinct_endpoints tblST (by decide)).2.2.1⟩

/-- Claim C3: after a rebuild, node and edge table satisfy endpoint-set
equality: a singleton row `[v]` is in the derived node table exactly when `v`
occurs as an endpoint value of some row of the merged edge table. -/
theorem c3_endpoint_set_equality (a b : Table)
    (hn : (mergeEdges a b).header.Nodup) :
    ∀ v : Option String,
      [v] ∈ (nodesOf (mergeEdges a b)).rows ↔
        ∃ r ∈ (mergeEdges a b).rows,
          v ∈ endpointCells (mergeEdges a b) r := by
  intro v
  rw [mem_nodesOf]
  simp [endpointValues]

theorem c3_witness :
    (mergeEdges tblST tblCD).header.Nodup ∧
    ([some "C"] ∈ (nodesOf (mergeEdges tblST tblCD)).rows ↔
      ∃ r ∈ (mergeEdges tblST tblCD).rows,
        some "C" ∈ endpointCells (mergeEdges tblST tblCD) r) :=
  ⟨by decide, c3_endpoint_set_equality tblST tblCD (by decide) (some "C")⟩

/-- Claim C6: for any original and augmented edge tables, the merged table's
row count is at most the sum of the two row counts, and equals that sum minus
the number of exact-duplicate rows found in the concatenation. -/
theorem c6_merged_row_count (a b : Table) :
    (mergeEdges a b).rows.length ≤ a.rows.length + b.rows.length ∧
    (mergeEdges a b).rows.length =
      a.rows.length + b.rows.length -
        dupCount (concatTables (lowerTable a) (lowerTable b)).rows := by
  have hc : (concatTables (lowerTable a) (lowerTable b)).rows.length =
      a.rows.length + b.rows.length := by
    simp [concatTables, lowerTable]
  have hl := length_dropDupAux_add ([] : List (List (Option String)))
    (concatTables (lowerTable a) (lowerTable b)).rows
  have hm : (mergeEdges a b).rows =
      dropDuplicates (concatTables (lowerTable a) (lowerTable b)).rows := rfl
  rw [hm]
  unfold dropDuplicates dupCount
  omega

/-- Counterexample to claim C8 as stated: with a header-only augmented table,
the merged output need not equal the original table unchanged — the builder
still lowercases the column names and drops exact-duplicate rows of the
original table itself. -/
theorem c8_counterexample :
    tblHdrOnly.rows = [] ∧ mergeEdges tblSTdup tblHdrOnly ≠ tblSTdup := by
  decide

/-- Claim C8 amended: with a header-only (zero data rows) augmented table
whose lowercased header matches the original's duplicate-free lowercased
header, the merged output is the original table with column names lowercased
and exact-duplicate rows removed keeping the first occurrence; it equals the
original unchanged when the original's column names are already lowercase
and its rows have no exact duplicates. -/
theorem c8_header_only_aug (a b : Table)
    (hrows : b.rows = [])
    (hh : (lowerTable b).header = (lowerTable a).header)
    (hn : (lowerTable a).header.Nodup)
    (ha : ∀ r ∈ a.rows, r.length = a.header.length) :
    mergeEdges a b = ⟨(lowerTable a).header, dropDuplicates a.rows⟩ ∧
    (a.rows.Nodup → (∀ c ∈ a.header, pyLower c = c) → mergeEdges a b = a) := by
  have hb : ∀ r ∈ b.rows, r.length = b.header.length := by
    rw [hrows]; intro r hr; cases hr
  have he := mergeEdges_eq a b hh hn ha hb
  rw [hrows, List.append_nil] at he
  refine ⟨he, ?_⟩
  intro hnd hlc
  rw [he]
  have h1 : (lowerTable a).header = a.header := by
    simp only [lowerTable]
    rw [List.map_congr_left hlc]
    simp
  have h2 : dropDuplicates a.rows = a.rows :=
    dropDupAux_eq_self hnd (by simp)
  rw [h1, h2]

theorem c8_witness :
    tblHdrOnly.rows = [] ∧ mergeEdges tblST tblHdrOnly = tblST :=
  ⟨rfl,
   (c8_header_only_aug tblST tblHdrOnly rfl (by decide) (by decide)
      (by decide)).2 (by decide) (by decide)⟩

/-- Claim C10: when some row of the merged edge table has a missing (NaN)
value in an endpoint position, the derived node table contains the singleton
row with a missing id, and that row serializes to a blank line in the nodes
CSV. -/
theorem c10_missing_endpoint_blank_id (a b : Table)
    (h : ∃ r ∈ (mergeEdges a b).rows,
      none ∈ endpointCells (mergeEdges a b) r) :
    [none] ∈ (nodesOf (mergeEdges a b)).rows ∧ serializeRow [none] = "" := by
  refine ⟨mem_nodesOf.mpr ?_, rfl⟩
  exact List.mem_flatMap.mpr (by simpa using h)

theorem c10_witness :
    (∃ r ∈ (mergeEdges tblNaN tblHdrOnly).rows,
      none ∈ endpointCells (mergeEdges tblNaN tblHdrOnly) r) ∧
    [none] ∈ (nodesOf (mergeEdges tblNaN tblHdrOnly)).rows :=
  ⟨by decide,
   (c10_missing_endpoint_blank_id tblNaN tblHdrOnly (by decide)).1⟩

/-- Claim C4 evaluated on the code: an unparseable augmented-edges file for
the luminal subtype makes the loop abort (uncaught `pd.read_csv` exception):
the run ends incomplete, prints no per-subtype summary, and the tnbc subtype
— whose inputs are all present and parseable — is never built, so the parse
failure is not contained to the per-subtype boundary. -/
theorem c4_parse_failure_aborts_loop :
    cfs4 luminalInfo.augEdgesPath = some (FileData.text "not,a\"valid,csv") ∧
    cfs4 tnbcInfo.origEdgesPath = some (FileData.parsed tblCD) ∧
    cfs4 tnbcInfo.origNodesPath = some (FileData.text "nodes") ∧
    cfs4 tnbcInfo.augEdgesPath = some (FileData.parsed tblSwap) ∧
    (runAug cfs4).2.2 = false ∧
    (runAug cfs4).2.1 = [] ∧
    (runAug cfs4).1 (outEdgesPath "tnbc_aug") = none ∧
    (runAug cfs4).1 (outNodesPath "tnbc_aug") = none := by
  decide

/-- Claim C5: when one augmented subtype's original-edges file is absent, the
loop emits a report naming that subtype (its original-counterpart tag) and
both original file paths, finishes the whole pass, and still builds and
writes the other subtype's merged edge and node files. -/
theorem c5_missing_input_skips_one_subtype
    (fs : FS) (tE tA : Table) (dN : FileData)
    (h1 : fs luminalInfo.origEdgesPath = none)
    (h2 : fs tnbcInfo.origEdgesPath = some (FileData.parsed tE))
    (h3 : fs tnbcInfo.origNodesPath = some dN)
    (h4 : fs tnbcInfo.augEdgesPath = some (FileData.parsed tA)) :
    (runAug fs).2.2 = true ∧
    (runAug fs).2.1 =
      [Report.missingOrig "luminal_original"
         luminalInfo.origEdgesPath luminalInfo.origNodesPath,
       Report.merged "tnbc_aug" (nodesOf (mergeEdges tE tA)).rows.length
         (mergeEdges tE tA).rows.length] ∧
    (runAug fs).1 (outEdgesPath "tnbc_aug") =
      some (FileData.text (serializeTable (mergeEdges tE tA))) ∧
    (runAug fs).1 (outNodesPath "tnbc_aug") =
      some (FileData.text (serializeTable (nodesOf (mergeEdges tE tA)))) := by
  have hs1 : stepOf luminalInfo fs = StepResult.skipOrig := by
    simp [stepOf, h1]
  have happ1 : applyStep "luminal_aug" StepResult.skipOrig fs = fs := rfl
  have hs2 : stepOf tnbcInfo fs =
      StepResult.built (mergeEdges tE tA) (nodesOf (mergeEdges tE tA)) := by
    simp [stepOf, h2, h3, h4]
  have hrep : pyReplace "luminal_aug" "_aug" "_original" = "luminal_original" :=
    by decide
  have hne : outEdgesPath "tnbc_aug" ≠ outNodesPath "tnbc_aug" := by decide
  rw [runAug_eq fs, hs1, happ1, hs2]
  simp [reportOf, hrep, applyStep, writeFile, hne, Ne.symm hne]

theorem c5_witness :
    (runAug cfs5).2.2 = true ∧
    (runAug cfs5).1 (outEdgesPath "tnbc_aug") =
      some (FileData.text (serializeTable (mergeEdges tblST tblCD))) :=
  ⟨(c5_missing_input_skips_one_subtype cfs5 tblST tblCD (FileData.text "nodes")
      (by decide) (by decide) (by decide) (by decide)).1,
   (c5_missing_input_skips_one_subtype cfs5 tblST tblCD (FileData.text "nodes")
      (by decide) (by decide) (by decide) (by decide)).2.2.1⟩

/-- Claim C9: the loop requires the original-nodes CSV to exist — when it is
absent (original edges present) the subtype is skipped entirely, nothing is
written for it and the missing-original report is emitted — yet the file is
never read: the step's outcome is unchanged when the content stored at the
original-nodes path is replaced by any other content, for either subtype. -/
theorem c9_orig_nodes_required_never_read
    (fs : FS) (d d1 d2 : FileData)
    (he : fs luminalInfo.origEdgesPath = some d)
    (hn : fs luminalInfo.origNodesPath = none) :
    stepOf luminalInfo fs = StepResult.skipOrig ∧
    applyStep "luminal_aug" (stepOf luminalInfo fs) fs = fs ∧
    reportOf "luminal_aug" luminalInfo (stepOf luminalInfo fs) =
      some (Report.missingOrig "luminal_original"
        luminalInfo.origEdgesPath luminalInfo.origNodesPath) ∧
    stepOf luminalInfo (writeFile fs luminalInfo.origNodesPath d1) =
      stepOf luminalInfo (writeFile fs luminalInfo.origNodesPath d2) ∧
    stepOf tnbcInfo (writeFile fs tnbcInfo.origNodesPath d1) =
      stepOf tnbcInfo (writeFile fs tnbcInfo.origNodesPath d2) := by
  have hs : stepOf luminalInfo fs = StepResult.skipOrig := by
    simp [stepOf, hn]
  have hrep : pyReplace "luminal_aug" "_aug" "_original" = "luminal_original" :=
    by decide
  refine ⟨hs, by rw [hs]; rfl, by rw [hs]; simp [reportOf, hrep], ?_, ?_⟩
  · have hb1 : luminalInfo.origEdgesPath ≠ luminalInfo.origNodesPath := by
      decide
    have hb2 : luminalInfo.augEdgesPath ≠ luminalInfo.origNodesPath := by
      decide
    simp [stepOf, writeFile, hb1, hb2]
  · have hb1 : tnbcInfo.origEdgesPath ≠ tnbcInfo.origNodesPath := by decide
    have hb2 : tnbcInfo.augEdgesPath ≠ tnbcInfo.origNodesPath := by decide
    simp [stepOf, writeFile, hb1, hb2]

theorem c9_witness :
    stepOf luminalInfo cfs9 = StepResult.skipOrig ∧
    stepOf luminalInfo
        (writeFile cfs9 luminalInfo.origNodesPath (FileData.text "anything")) =
      stepOf luminalInfo
        (writeFile cfs9 luminalInfo.origNodesPath (FileData.parsed tblCD)) :=
  ⟨(c9_orig_nodes_required_never_read cfs9 (FileData.parsed tblST)
      (FileData.text "anything") (FileData.parsed tblCD)
      (by decide) (by decide)).1,
   (c9_orig_nodes_required_never_read cfs9 (FileData.parsed tblST)
      (FileData.text "anything") (FileData.parsed tblCD)
      (by decide) (by decide)).2.2.2.1⟩

/-- Claim C7: running the `aug_map` loop a second time on the file system the
first run produced leaves every file — in particular the four merged edge and
node CSVs — byte-for-byte identical: the loop reads only the six raw input
paths, which it never writes, and overwrites its outputs with the same
serialized bytes. -/
theorem c7_second_run_identical (fs : FS) :
    (runAug ((runAug fs).1)).1 = (runAug fs).1 := by
  have hoo1 : outEdgesPath "luminal_aug" ≠ outNodesPath "luminal_aug" := by
    decide
  have hoo2 : outEdgesPath "tnbc_aug" ≠ outNodesPath "tnbc_aug" := by decide
  have hsl : ∀ (s : StepResult) (f : FS),
      stepOf luminalInfo (applyStep "luminal_aug" s f) = stepOf luminalInfo f :=
    fun s f => stepOf_applyStep luminalInfo "luminal_aug" s f
      (by decide) (by decide) (by decide) (by decide) (by decide) (by decide)
  have hsl2 : ∀ (s : StepResult) (f : FS),
      stepOf luminalInfo (applyStep "tnbc_aug" s f) = stepOf luminalInfo f :=
    fun s f => stepOf_applyStep luminalInfo "tnbc_aug" s f
      (by decide) (by decide) (by decide) (by decide) (by decide) (by decide)
  have hst2 : ∀ (s : StepResult) (f : FS),
      stepOf tnbcInfo (applyStep "tnbc_aug" s f) = stepOf tnbcInfo f :=
    fun s f => stepOf_applyStep tnbcInfo "tnbc_aug" s f
      (by decide) (by decide) (by decide) (by decide) (by decide) (by decide)
  by_cases h1 : stepOf luminalInfo fs = StepResult.parseFail
  · have hA : (runAug fs).1 = fs := by rw [runAug_eq fs, if_pos h1]
    rw [hA]
    exact hA
  · by_cases h2 : stepOf tnbcInfo
        (applyStep "luminal_aug" (stepOf luminalInfo fs) fs) =
        StepResult.parseFail
    · have hA : (runAug fs).1 =
          applyStep "luminal_aug" (stepOf luminalInfo fs) fs := by
        rw [runAug_eq fs, if_neg h1, if_pos h2]
      rw [hA, runAug_eq, hsl (stepOf luminalInfo fs) fs, if_neg h1,
        applyStep_self "luminal_aug" (stepOf luminalInfo fs) fs hoo1,
        if_pos h2]
    · have hA : (runAug fs).1 =
          applyStep "tnbc_aug"
            (stepOf tnbcInfo (applyStep "luminal_aug" (stepOf luminalInfo fs) fs))
            (applyStep "luminal_aug" (stepOf luminalInfo fs) fs) := by
        rw [runAug_eq fs, if_neg h1, if_neg h2]
      rw [hA, runAug_eq, hsl2 _ _, hsl _ _, if_neg h1,
        applyStep_absorb2 "luminal_aug" "tnbc_aug" (stepOf luminalInfo fs) _ fs
          hoo1 (by decide) (by decide) (by decide) (by decide),
        hst2 _ _, if_neg h2,
        applyStep_self "tnbc_aug" _
          (applyStep "luminal_aug" (stepOf luminalInfo fs) fs) hoo2]

end BuildData
